import Mathlib

set_option maxHeartbeats 1000000

/-!
Verification of the property-container library in `dl_commons.py`
(classes `Properties`, `ParamDesc`, `Params`, `HyperParams` and the three
validator classes).  The Python classes are shallowly embedded: the mutable
dictionary state becomes an explicit association list threaded through the
operations, and every method that can raise returns `Except Err _`.
-/

deriving instance DecidableEq for Except

/-- Python values handled by the container library: the `None` marker
("no value"), integers, strings and booleans. -/
inductive Val where
  | none
  | int (n : Int)
  | str (s : String)
  | bool (b : Bool)
deriving DecidableEq, Repr

/-- The error kinds the library raises.  `accessDenied` is
`AccessDeniedError`, `keyNotFound` is Python's `KeyError`,
`invalidValue` and `duplicateDeclaration` are the two distinct
`ValueError` sites (`Params._set_val_` and `Params.__init__`
respectively; the spec names them as separate kinds). -/
inductive Err where
  | accessDenied
  | keyNotFound
  | invalidValue
  | duplicateDeclaration
deriving DecidableEq, Repr

/-- The validator objects of the source: `_mandatoryValidator` (its single
instance is `mandatory`), `instanceof(cls)` for the classes of our value
universe (`instanceof(object)` accepts every value, `None` included), and
`frange_incl(begin, end)`.  In Python 2 a `bool` is an `int` equal to 0/1,
so the range test treats booleans numerically. -/
inductive Validator where
  | mandatory
  | instanceofInt
  | instanceofStr
  | instanceofBool
  | instanceofObject
  | frange_incl (lo hi : Int)
deriving DecidableEq, Repr

/-- The `__contains__` method of a validator: `val in validator`. -/
def Validator.test : Validator → Val → Bool
  | .mandatory, v => decide (v ≠ Val.none)
  | .instanceofInt, v => match v with | .int _ => true | _ => false
  | .instanceofStr, v => match v with | .str _ => true | _ => false
  | .instanceofBool, v => match v with | .bool _ => true | _ => false
  | .instanceofObject, _ => true
  | .frange_incl lo hi, v =>
      match v with
      | .int n => decide (lo ≤ n) && decide (n ≤ hi)
      | .bool b => decide (lo ≤ (if b then (1 : Int) else 0)) && decide ((if b then (1 : Int) else 0) ≤ hi)
      | _ => false

/-- Lookup in an association list (a Python `dict` keyed by name). -/
def assocGet {α : Type} : List (String × α) → String → Option α
  | [], _ => Option.none
  | (k, v) :: rest, n => if k = n then some v else assocGet rest n

/-- `dict.__setitem__`: overwrite in place when the key exists, append
otherwise (insertion order preserved, as in a Python dict). -/
def assocSet {α : Type} : List (String × α) → String → α → List (String × α)
  | [], n, v => [(n, v)]
  | (k, w) :: rest, n, v => if k = n then (n, v) :: rest else (k, w) :: assocSet rest n v

/-- The key list of an association list. -/
def keyList {α : Type} (l : List (String × α)) : List String := l.map Prod.fst

/-- Class `Properties`: a dict plus the two out-of-band guard flags
`_isFrozen` and `_isSealed` (both `False` at `__init__`). -/
structure Properties where
  entries : List (String × Val)
  isFrozen : Bool
  isSealed : Bool
deriving DecidableEq, Repr

/-- `Properties._get_val_`: `dict.__getitem__`, raising `KeyError` when
the key is absent. -/
def Properties.getVal (p : Properties) (k : String) : Except Err Val :=
  match assocGet p.entries k with
  | some v => .ok v
  | Option.none => .error .keyNotFound

/-- `Properties._set_val_`: raise `AccessDeniedError` when frozen; then
raise `AccessDeniedError` when sealed and the key is new; otherwise store. -/
def Properties.setVal (p : Properties) (k : String) (v : Val) : Except Err Properties :=
  if p.isFrozen then .error .accessDenied
  else if p.isSealed && (assocGet p.entries k).isNone then .error .accessDenied
  else .ok { p with entries := assocSet p.entries k v }

/-- `Properties.__copy__` returns `dict.copy(self)`: a plain dict holding
the same entries, carrying no guard flags at all (modelled as a
`Properties` whose flags are the initial `false`). -/
def Properties.copy (p : Properties) : Properties :=
  { entries := p.entries, isFrozen := false, isSealed := false }

/-- `Properties.freeze`. -/
def Properties.freeze (p : Properties) : Properties := { p with isFrozen := true }

/-- `Properties.seal`. -/
def Properties.seal (p : Properties) : Properties := { p with isSealed := true }

/-- A write call under Python exception semantics: every failing branch of
`_set_val_` raises before the single `dict.__setitem__` it guards, so a
failing call leaves the object exactly as it was; the pair returns the
post-state together with the outcome. -/
def Properties.runSet (p : Properties) (k : String) (v : Val) : Properties × Option Err :=
  match p.setVal k v with
  | .ok q => (q, Option.none)
  | .error e => (p, some e)

/-- Class `ParamDesc`: the immutable descriptor
`{name, text, validator, default}` (missing validator is `None`; a missing
default is the `None` marker). -/
structure ParamDesc where
  name : String
  text : String
  validator : Option Validator
  default : Val
deriving DecidableEq, Repr

/-- Whether a declared validator accepts the `None` marker as data:
`(validator is not None) and (None in validator)`. -/
def acceptsNone : Option Validator → Bool
  | Option.none => false
  | some V => V.test Val.none

/-- The validity test of `Params._set_val_`: a value may be stored iff it
is the `None` marker, or no validator is declared, or the validator
accepts it (the raise condition is
`(val is not None) and (validator is not None) and (val not in validator)`). -/
def valOk (d : ParamDesc) (v : Val) : Bool :=
  decide (v = Val.none) ||
    (match d.validator with
     | Option.none => true
     | some V => V.test v)

/-- The dynamic class of a schema-bound container: `Params` or its
subclass `HyperParams` (which overrides only `__contains__` and
`_get_val_`). -/
inductive PKind where
  | params
  | hyperparams
deriving DecidableEq, Repr

/-- A `Params` / `HyperParams` instance: the inherited `Properties` state
(`entries` plus guard flags), the original descriptor tuple `_desc_list`
(property `protoS`) and the name→descriptor dict `_descr_dict`
(property `protoD`). -/
structure Container where
  kind : PKind
  entries : List (String × Val)
  isFrozen : Bool
  isSealed : Bool
  protoS : List ParamDesc
  protoD : List (String × ParamDesc)
deriving DecidableEq, Repr

/-- `Params.isValidName`: `name in self.protoD`. -/
def Container.isValidName (c : Container) (n : String) : Bool :=
  (assocGet c.protoD n).isSome

/-- `Params._get_val_` as a total lookup: `some v` when the call returns
`v`, `Option.none` when it raises `KeyError` (invalid name, or the name
missing from the underlying dict). -/
def Container.getValP (c : Container) (n : String) : Option Val :=
  if c.isValidName n then assocGet c.entries n else Option.none

/-- The dispatched `_get_val_` as a total lookup.  For `HyperParams` it
additionally raises `KeyError` when the stored value is the `None` marker
and the validator does not explicitly accept the marker
(`(val == None) and ((validator is None) or (None not in validator))`). -/
def Container.getValTot (c : Container) (n : String) : Option Val :=
  match c.kind with
  | .params => c.getValP n
  | .hyperparams =>
    match c.getValP n, assocGet c.protoD n with
    | some v, some d =>
        if v = Val.none ∧ acceptsNone d.validator = false then Option.none else some v
    | _, _ => Option.none

/-- The dispatched `_get_val_` with its `KeyError` made explicit (every
raise in both `_get_val_` bodies is a `KeyError`). -/
def Container.getVal (c : Container) (n : String) : Except Err Val :=
  match c.getValTot n with
  | some v => .ok v
  | Option.none => .error .keyNotFound

/-- The dispatched `__contains__`: for `Params` it is the inherited dict
membership over `entries`; `HyperParams.__contains__` calls `_get_val_`
and converts a `KeyError` to `False`. -/
def Container.contains (c : Container) (n : String) : Bool :=
  match c.kind with
  | .params => (assocGet c.entries n).isSome
  | .hyperparams => (c.getValTot n).isSome

/-- `Params._set_val_` (shared by `HyperParams`): raise `KeyError` for a
name outside the schema, then `ValueError` for an invalid non-`None`
value, then delegate to `Properties._set_val_` (frozen/sealed guards). -/
def Container.setVal (c : Container) (n : String) (v : Val) : Except Err Container :=
  match assocGet c.protoD n with
  | Option.none => .error .keyNotFound
  | some d =>
    if valOk d v = false then .error .invalidValue
    else
      match Properties.setVal ⟨c.entries, c.isFrozen, c.isSealed⟩ n v with
      | .error e => .error e
      | .ok p => .ok { c with entries := p.entries, isFrozen := p.isFrozen, isSealed := p.isSealed }

/-- `freeze` on a schema-bound container. -/
def Container.freeze (c : Container) : Container := { c with isFrozen := true }

/-- `seal` on a schema-bound container. -/
def Container.seal (c : Container) : Container := { c with isSealed := true }

/-- A write call on a schema-bound container under Python exception
semantics (see `Properties.runSet`): `Params._set_val_` raises in every
failing branch before any store happens. -/
def Container.runSet (c : Container) (n : String) (v : Val) : Container × Option Err :=
  match c.setVal n v with
  | .ok c' => (c', Option.none)
  | .error e => (c, some e)

/-- Well-formedness of a container as maintained by the library: the key
set of `entries` equals the key set of `protoD` (checked in both
directions over the finite key lists). -/
def Container.WFb (c : Container) : Bool :=
  (keyList c.entries).all (fun n => (assocGet c.protoD n).isSome) &&
  (keyList c.protoD).all (fun n => (assocGet c.entries n).isSome)

/-- The `prototype` argument of `Params.__init__`: either a sequence of
descriptors or an existing container instance. -/
inductive Proto where
  | descs : List ParamDesc → Proto
  | cont : Container → Proto

/-- The effective descriptor sequence: the prototype itself, or
`prototype.protoS` when the prototype is a container. -/
def Proto.descList : Proto → List ParamDesc
  | .descs l => l
  | .cont c => c.protoS

/-- Well-formedness of a prototype: a container prototype must be
well-formed (a plain descriptor list always is). -/
def Proto.wfb : Proto → Bool
  | .descs _ => true
  | .cont c => c.WFb

/-- A value source used during construction (`vals1_` / `vals2_`):
either a plain dict of overrides or a container whose `__contains__` /
`__getitem__` dispatch on its dynamic class. -/
inductive ValSource where
  | dict : List (String × Val) → ValSource
  | cont : Container → ValSource

/-- `name in source`. -/
def ValSource.containsName : ValSource → String → Bool
  | .dict l, n => (assocGet l n).isSome
  | .cont c, n => c.contains n

/-- `source[name]` as a total lookup (`Option.none` when it would raise). -/
def ValSource.lookupName : ValSource → String → Option Val
  | .dict l, n => assocGet l n
  | .cont c, n => c.getValTot n

/-- `source[name]` with the `KeyError` made explicit. -/
def ValSource.get (s : ValSource) (n : String) : Except Err Val :=
  match s.lookupName n with
  | some v => .ok v
  | Option.none => .error .keyNotFound

/-- Well-formedness of a value source. -/
def ValSource.wfb : ValSource → Bool
  | .dict _ => true
  | .cont c => c.WFb

/-- The pair `(vals1_, vals2_)` set up by `Params.__init__` from the
prototype and the optional `initVals`. -/
def srcsOf : Proto → Option (List (String × Val)) → ValSource × ValSource
  | .cont c, Option.none => (.cont c, .dict [])
  | .cont c, some o => (.dict o, .cont c)
  | .descs _, Option.none => (.dict [], .dict [])
  | .descs _, some o => (.dict o, .dict [])

/-- One resolution step of `Params.__init__`:
`vals1_[name] if (name in vals1_) else vals2_[name] if (name in vals2_)
else prop.default`. -/
def resolveStep (s1 s2 : ValSource) (d : ParamDesc) : Except Err Val :=
  if s1.containsName d.name then s1.get d.name
  else if s2.containsName d.name then s2.get d.name
  else .ok d.default

/-- The resolution step totalised (equal to `resolveStep` whenever the
sources are well-formed). -/
def resolveT (s1 s2 : ValSource) (d : ParamDesc) : Val :=
  if s1.containsName d.name then (s1.lookupName d.name).getD d.default
  else if s2.containsName d.name then (s2.lookupName d.name).getD d.default
  else d.default

/-- The schema scan of `Params.__init__`: build `props` (the
name→descriptor dict) and `_vals` (the resolved initial values), raising
`ValueError` ("property %s has already been initialized") the moment a
name repeats. -/
def scanDescs (s1 s2 : ValSource) :
    List ParamDesc → List (String × ParamDesc) → List (String × Val) →
    Except Err (List (String × ParamDesc) × List (String × Val))
  | [], props, vals => .ok (props, vals)
  | d :: rest, props, vals =>
    if (assocGet props d.name).isSome then .error .duplicateDeclaration
    else
      match resolveStep s1 s2 d with
      | .error e => .error e
      | .ok v => scanDescs s1 s2 rest (assocSet props d.name d) (assocSet vals d.name v)

/-- The assignment loop of `Params.__init__`: store every resolved value
through the validated `self[_name] = _val` path. -/
def setAll : Container → List (String × Val) → Except Err Container
  | c, [] => .ok c
  | c, (n, v) :: rest =>
    match c.setVal n v with
    | .error e => .error e
    | .ok c' => setAll c' rest

/-- `Params.__init__` / `HyperParams.__init__` (the constructor is
inherited unchanged): pick the descriptor sequence and the two value
sources, scan the schema, assign every resolved value through the
validated set path, and finally seal the object. -/
def construct (kind : PKind) (proto : Proto) (initVals : Option (List (String × Val))) :
    Except Err Container :=
  let descriptors := proto.descList
  let s := srcsOf proto initVals
  match scanDescs s.1 s.2 descriptors [] [] with
  | .error e => .error e
  | .ok (props, vals) =>
    match setAll ⟨kind, [], false, false, descriptors, props⟩ vals with
    | .error e => .error e
    | .ok c1 => .ok c1.seal

/-- Resolution precedence at the level the (amended) spec states it:
the override value when the name is present in the overrides; else, when
the prototype is a container instance in which the name is effectively
present (its membership test succeeds — always the case for a plain
schema-bound prototype, and for a presence-aware prototype exactly when
the stored value is not the marker or the validator accepts the marker),
the prototype's current value; else the descriptor's declared default
(itself the marker when no default was declared). -/
def specResolve (initVals : Option (List (String × Val))) (proto : Proto) (d : ParamDesc) : Val :=
  match assocGet (initVals.getD []) d.name with
  | some v => v
  | Option.none =>
    match proto with
    | .cont p => if p.contains d.name then (p.getValTot d.name).getD d.default else d.default
    | .descs _ => d.default

/-! ## Association-list lemmas -/

theorem keyList_nil {α : Type} : keyList ([] : List (String × α)) = [] := rfl

theorem keyList_cons {α : Type} (k : String) (w : α) (tl : List (String × α)) :
    keyList ((k, w) :: tl) = k :: keyList tl := rfl

theorem mem_keyList_iff {α : Type} (l : List (String × α)) (n : String) :
    n ∈ keyList l ↔ (assocGet l n).isSome = true := by
  induction l with
  | nil => simp [keyList, assocGet]
  | cons hd tl ih =>
    obtain ⟨k, v⟩ := hd
    by_cases hk : k = n
    · subst hk
      simp [keyList, assocGet]
    · rw [keyList_cons, List.mem_cons]
      have hget : assocGet ((k, v) :: tl) n = assocGet tl n := by simp [assocGet, hk]
      rw [hget]
      constructor
      · rintro (h | hmem)
        · exact absurd h.symm hk
        · exact ih.mp hmem
      · intro hs
        exact Or.inr (ih.mpr hs)

theorem assocGet_assocSet_self {α : Type} (l : List (String × α)) (n : String) (v : α) :
    assocGet (assocSet l n v) n = some v := by
  induction l with
  | nil => simp [assocSet, assocGet]
  | cons hd tl ih =>
    obtain ⟨k, w⟩ := hd
    by_cases hk : k = n
    · simp [assocSet, hk, assocGet]
    · simp [assocSet, hk, assocGet, ih]

theorem assocGet_assocSet_ne {α : Type} (l : List (String × α)) (n m : String) (v : α)
    (h : m ≠ n) : assocGet (assocSet l n v) m = assocGet l m := by
  induction l with
  | nil => simp [assocSet, assocGet, Ne.symm h]
  | cons hd tl ih =>
    obtain ⟨k, w⟩ := hd
    by_cases hk : k = n
    · subst hk
      simp [assocSet, assocGet, Ne.symm h]
    · by_cases hm : k = m
      · simp [assocSet, assocGet, hk, hm, h]
      · simp [assocSet, assocGet, hk, hm, ih]

theorem assocSet_fresh {α : Type} (l : List (String × α)) (n : String) (v : α)
    (h : assocGet l n = Option.none) : assocSet l n v = l ++ [(n, v)] := by
  induction l with
  | nil => simp [assocSet]
  | cons hd tl ih =>
    obtain ⟨k, w⟩ := hd
    by_cases hk : k = n
    · simp [assocGet, hk] at h
    · simp [assocGet, hk] at h
      simp [assocSet, hk, ih h]

theorem keyList_assocSet {α : Type} (l : List (String × α)) (n : String) (v : α) :
    keyList (assocSet l n v) = if n ∈ keyList l then keyList l else keyList l ++ [n] := by
  induction l with
  | nil => simp [assocSet, keyList]
  | cons hd tl ih =>
    obtain ⟨k, w⟩ := hd
    by_cases hk : k = n
    · subst hk
      simp [assocSet, keyList]
    · have hnk : ¬ n = k := Ne.symm hk
      have e1 : assocSet ((k, w) :: tl) n v = (k, w) :: assocSet tl n v := by
        simp [assocSet, hk]
      rw [e1, keyList_cons, keyList_cons, ih]
      by_cases hmem : n ∈ keyList tl
      · rw [if_pos hmem, if_pos (List.mem_cons_of_mem k hmem)]
      · rw [if_neg hmem, if_neg (by simp [List.mem_cons, hnk, hmem])]
        rfl

theorem mem_keyList_assocSet {α : Type} (l : List (String × α)) (n : String) (v : α)
    (m : String) : m ∈ keyList (assocSet l n v) ↔ m ∈ keyList l ∨ m = n := by
  rw [keyList_assocSet]
  by_cases h : n ∈ keyList l
  · rw [if_pos h]
    constructor
    · exact fun hm => Or.inl hm
    · rintro (hm | rfl)
      · exact hm
      · exact h
  · rw [if_neg h]
    simp [List.mem_append]

theorem keyList_append {α : Type} (l1 l2 : List (String × α)) :
    keyList (l1 ++ l2) = keyList l1 ++ keyList l2 := by
  simp [keyList]

/-! ## Well-formedness and resolution lemmas -/

theorem WFb_iff (c : Container) :
    c.WFb = true ↔ ∀ n, (n ∈ keyList c.entries ↔ n ∈ keyList c.protoD) := by
  unfold Container.WFb
  rw [Bool.and_eq_true, List.all_eq_true, List.all_eq_true]
  constructor
  · rintro ⟨h1, h2⟩ n
    constructor
    · intro hn
      exact (mem_keyList_iff _ _).mpr (h1 n hn)
    · intro hn
      exact (mem_keyList_iff _ _).mpr (h2 n hn)
  · intro h
    constructor
    · intro n hn
      exact (mem_keyList_iff _ _).mp ((h n).mp hn)
    · intro n hn
      exact (mem_keyList_iff _ _).mp ((h n).mpr hn)

theorem lookupName_isSome_of_contains (s : ValSource) (n : String)
    (hw : s.wfb = true) (hc : s.containsName n = true) :
    (s.lookupName n).isSome = true := by
  cases s with
  | dict l => exact hc
  | cont c =>
    cases hk : c.kind with
    | hyperparams =>
      simpa [ValSource.containsName, Container.contains, hk, ValSource.lookupName] using hc
    | params =>
      have hce : (assocGet c.entries n).isSome = true := by
        simpa [ValSource.containsName, Container.contains, hk] using hc
      have hpd : (assocGet c.protoD n).isSome = true := by
        have hwc : c.WFb = true := hw
        have := ((WFb_iff c).mp hwc n).mp ((mem_keyList_iff _ _).mpr hce)
        exact (mem_keyList_iff _ _).mp this
      simp [ValSource.lookupName, Container.getValTot, hk, Container.getValP,
            Container.isValidName, hpd, hce]

theorem resolveStep_ok (s1 s2 : ValSource) (d : ParamDesc)
    (h1 : s1.wfb = true) (h2 : s2.wfb = true) :
    resolveStep s1 s2 d = .ok (resolveT s1 s2 d) := by
  unfold resolveStep resolveT
  by_cases hc1 : s1.containsName d.name = true
  · rw [if_pos hc1, if_pos hc1]
    obtain ⟨v, hv⟩ := Option.isSome_iff_exists.mp (lookupName_isSome_of_contains s1 d.name h1 hc1)
    simp [ValSource.get, hv]
  · rw [if_neg hc1, if_neg hc1]
    by_cases hc2 : s2.containsName d.name = true
    · rw [if_pos hc2, if_pos hc2]
      obtain ⟨v, hv⟩ := Option.isSome_iff_exists.mp (lookupName_isSome_of_contains s2 d.name h2 hc2)
      simp [ValSource.get, hv]
    · rw [if_neg hc2, if_neg hc2]

theorem srcsOf_wfb (proto : Proto) (initVals : Option (List (String × Val)))
    (hw : proto.wfb = true) :
    (srcsOf proto initVals).1.wfb = true ∧ (srcsOf proto initVals).2.wfb = true := by
  cases proto with
  | descs l => cases initVals <;> simp [srcsOf, ValSource.wfb]
  | cont c =>
    cases initVals <;> simp [srcsOf, ValSource.wfb] <;> exact hw

/-! ## `setVal` characterisation -/

theorem setVal_ok_eq (c : Container) (n : String) (v : Val) (d : ParamDesc)
    (hd : assocGet c.protoD n = some d) (hval : valOk d v = true)
    (hf : c.isFrozen = false)
    (hg : c.isSealed = false ∨ (assocGet c.entries n).isSome = true) :
    c.setVal n v = .ok { c with entries := assocSet c.entries n v } := by
  rcases hg with hs | he
  · simp [Container.setVal, hd, hval, Properties.setVal, hf, hs]
  · obtain ⟨w, hw⟩ := Option.isSome_iff_exists.mp he
    simp [Container.setVal, hd, hval, Properties.setVal, hf, hw]

theorem setVal_ok_inv (c : Container) (n : String) (v : Val) (c' : Container)
    (h : c.setVal n v = .ok c') :
    ∃ d, assocGet c.protoD n = some d ∧ valOk d v = true ∧ c.isFrozen = false ∧
      (c.isSealed = false ∨ (assocGet c.entries n).isSome = true) ∧
      c' = { c with entries := assocSet c.entries n v } := by
  cases hd : assocGet c.protoD n with
  | none => simp [Container.setVal, hd] at h
  | some d =>
    by_cases hval : valOk d v = true
    · cases hf : c.isFrozen with
      | true => simp [Container.setVal, hd, hval, Properties.setVal, hf] at h
      | false =>
        cases he : assocGet c.entries n with
        | some w =>
          simp [Container.setVal, hd, hval, Properties.setVal, hf, he] at h
          exact ⟨d, rfl, hval, rfl, Or.inr (by simp [he]), h.symm⟩
        | none =>
          cases hs : c.isSealed with
          | true => simp [Container.setVal, hd, hval, Properties.setVal, hf, he, hs] at h
          | false =>
            simp [Container.setVal, hd, hval, Properties.setVal, hf, he, hs] at h
            exact ⟨d, rfl, hval, rfl, Or.inl rfl, h.symm⟩
    · simp [Container.setVal, hd, hval] at h

/-! ## Schema-scan lemmas -/

theorem scanDescs_ok (s1 s2 : ValSource) (h1 : s1.wfb = true) (h2 : s2.wfb = true)
    (ds : List ParamDesc) :
    ∀ (props : List (String × ParamDesc)) (vals : List (String × Val)),
    (∀ d ∈ ds, d.name ∉ keyList props) →
    (∀ d ∈ ds, d.name ∉ keyList vals) →
    (ds.map ParamDesc.name).Nodup →
    scanDescs s1 s2 ds props vals =
      .ok (props ++ ds.map (fun d => (d.name, d)),
           vals ++ ds.map (fun d => (d.name, resolveT s1 s2 d))) := by
  induction ds with
  | nil => intro props vals _ _ _; simp [scanDescs]
  | cons d rest ih =>
    intro props vals hp hv hnd
    have hdp : d.name ∉ keyList props := hp d (List.mem_cons_self d rest)
    have hdv : d.name ∉ keyList vals := hv d (List.mem_cons_self d rest)
    have hgp : assocGet props d.name = Option.none := by
      rw [← Option.not_isSome_iff_eq_none]
      intro hg
      exact hdp ((mem_keyList_iff _ _).mpr hg)
    have hgv : assocGet vals d.name = Option.none := by
      rw [← Option.not_isSome_iff_eq_none]
      intro hg
      exact hdv ((mem_keyList_iff _ _).mpr hg)
    have hnodcons : (∀ x ∈ rest, ¬ x.name = d.name) ∧ (rest.map ParamDesc.name).Nodup := by
      simpa using hnd
    have hnotrest : d.name ∉ rest.map ParamDesc.name := by
      intro hk
      obtain ⟨d', hd', hname⟩ := List.mem_map.mp hk
      exact hnodcons.1 d' hd' hname
    have hndrest : (rest.map ParamDesc.name).Nodup := hnodcons.2
    have hp' : ∀ d' ∈ rest, d'.name ∉ keyList (assocSet props d.name d) := by
      intro d' hd' hmem
      rcases (mem_keyList_assocSet props d.name d d'.name).mp hmem with hin | heq
      · exact hp d' (List.mem_cons_of_mem d hd') hin
      · exact hnotrest (heq ▸ List.mem_map_of_mem ParamDesc.name hd')
    have hv' : ∀ d' ∈ rest, d'.name ∉ keyList (assocSet vals d.name (resolveT s1 s2 d)) := by
      intro d' hd' hmem
      rcases (mem_keyList_assocSet vals d.name _ d'.name).mp hmem with hin | heq
      · exact hv d' (List.mem_cons_of_mem d hd') hin
      · exact hnotrest (heq ▸ List.mem_map_of_mem ParamDesc.name hd')
    have hstep := resolveStep_ok s1 s2 d h1 h2
    simp only [scanDescs, hgp, Option.isSome_none, Bool.false_eq_true, if_false, hstep]
    rw [ih _ _ hp' hv' hndrest, assocSet_fresh props d.name d hgp,
        assocSet_fresh vals d.name _ hgv]
    simp [List.append_assoc]

theorem scanDescs_dup (s1 s2 : ValSource) (h1 : s1.wfb = true) (h2 : s2.wfb = true)
    (ds : List ParamDesc) :
    ∀ (props : List (String × ParamDesc)) (vals : List (String × Val)),
    (¬ (ds.map ParamDesc.name).Nodup ∨ ∃ d ∈ ds, d.name ∈ keyList props) →
    scanDescs s1 s2 ds props vals = .error .duplicateDeclaration := by
  induction ds with
  | nil =>
    intro props vals h
    rcases h with h | ⟨d, hd, _⟩
    · simp at h
    · cases hd
  | cons d rest in_ih =>
    intro props vals h
    by_cases hdp : (assocGet props d.name).isSome = true
    · simp [scanDescs, hdp]
    · have hgp : assocGet props d.name = Option.none := Option.not_isSome_iff_eq_none.mp hdp
      have hstep := resolveStep_ok s1 s2 d h1 h2
      simp only [scanDescs, hgp, Option.isSome_none, Bool.false_eq_true, if_false, hstep]
      apply in_ih
      rcases h with hnod | ⟨d', hd', hmem⟩
      · rw [List.map_cons, List.nodup_cons] at hnod
        push_neg at hnod
        by_cases hk : d.name ∈ rest.map ParamDesc.name
        · right
          obtain ⟨d', hd', hname⟩ := List.mem_map.mp hk
          refine ⟨d', hd', ?_⟩
          rw [hname, mem_keyList_assocSet]
          exact Or.inr rfl
        · left
          exact hnod hk
      · rcases List.mem_cons.mp hd' with rfl | hd'rest
        · exact absurd ((mem_keyList_iff _ _).mp hmem) hdp
        · right
          exact ⟨d', hd'rest, (mem_keyList_assocSet props d.name d d'.name).mpr (Or.inl hmem)⟩

theorem scanDescs_ok_keys (s1 s2 : ValSource) (ds : List ParamDesc) :
    ∀ (props : List (String × ParamDesc)) (vals : List (String × Val)) P V,
    scanDescs s1 s2 ds props vals = .ok (P, V) →
    keyList props = keyList vals → keyList P = keyList V := by
  induction ds with
  | nil =>
    intro props vals P V h hkv
    simp [scanDescs] at h
    rw [← h.1, ← h.2]
    exact hkv
  | cons d rest ih =>
    intro props vals P V h hkv
    by_cases hdp : (assocGet props d.name).isSome = true
    · simp [scanDescs, hdp] at h
    · have hgp := Option.not_isSome_iff_eq_none.mp hdp
      cases hres : resolveStep s1 s2 d with
      | error e =>
        simp only [scanDescs, hgp, Option.isSome_none, Bool.false_eq_true, if_false, hres] at h
        exact Except.noConfusion h
      | ok v =>
        simp only [scanDescs, hgp, Option.isSome_none, Bool.false_eq_true, if_false, hres] at h
        apply ih _ _ _ _ h
        rw [keyList_assocSet, keyList_assocSet, hkv]

/-! ## Assignment-loop lemmas -/

theorem setAll_ok (vals : List (String × Val)) :
    ∀ (c : Container),
    c.isFrozen = false → c.isSealed = false →
    (∀ p ∈ vals, ∃ d, assocGet c.protoD p.1 = some d ∧ valOk d p.2 = true) →
    (∀ p ∈ vals, assocGet c.entries p.1 = Option.none) →
    (keyList vals).Nodup →
    ∃ c', setAll c vals = .ok c' ∧ c'.entries = c.entries ++ vals ∧
      c'.protoD = c.protoD ∧ c'.protoS = c.protoS ∧ c'.kind = c.kind ∧
      c'.isFrozen = false ∧ c'.isSealed = false := by
  induction vals with
  | nil =>
    intro c hf hs _ _ _
    exact ⟨c, by simp [setAll], by simp, rfl, rfl, rfl, hf, hs⟩
  | cons p rest ih =>
    intro c hf hs hv hfresh hnd
    obtain ⟨n, v⟩ := p
    obtain ⟨d, hd, hval⟩ := hv (n, v) (List.mem_cons_self _ _)
    have hset := setVal_ok_eq c n v d hd hval hf (Or.inl hs)
    have hfr : assocGet c.entries n = Option.none := hfresh (n, v) (List.mem_cons_self _ _)
    have hent2 : ({ c with entries := assocSet c.entries n v } : Container).entries =
        c.entries ++ [(n, v)] := assocSet_fresh _ _ _ hfr
    have hndc := List.nodup_cons.mp (by rw [keyList_cons] at hnd; exact hnd)
    have hv' : ∀ q ∈ rest,
        ∃ d, assocGet ({ c with entries := assocSet c.entries n v } : Container).protoD q.1 = some d ∧
          valOk d q.2 = true := by
      intro q hq
      exact hv q (List.mem_cons_of_mem _ hq)
    have hfresh' : ∀ q ∈ rest,
        assocGet ({ c with entries := assocSet c.entries n v } : Container).entries q.1 =
          Option.none := by
      intro q hq
      have hqn : q.1 ≠ n := by
        intro he
        exact hndc.1 (he ▸ List.mem_map_of_mem Prod.fst hq)
      show assocGet (assocSet c.entries n v) q.1 = Option.none
      rw [assocGet_assocSet_ne _ _ _ _ hqn]
      exact hfresh q (List.mem_cons_of_mem _ hq)
    obtain ⟨c', hsa, hent, hpd, hps, hk, hf', hs'⟩ :=
      ih { c with entries := assocSet c.entries n v } hf hs hv' hfresh' hndc.2
    refine ⟨c', ?_, ?_, hpd, hps, hk, hf', hs'⟩
    · simp [setAll, hset, hsa]
    · rw [hent, hent2, List.append_assoc]
      rfl

theorem setAll_ok_inv (vals : List (String × Val)) :
    ∀ (c c' : Container), setAll c vals = .ok c' →
    (∀ m, m ∈ keyList c'.entries ↔ (m ∈ keyList c.entries ∨ m ∈ keyList vals)) ∧
    c'.protoD = c.protoD ∧ c'.protoS = c.protoS ∧
    c'.isFrozen = c.isFrozen ∧ c'.isSealed = c.isSealed ∧ c'.kind = c.kind := by
  induction vals with
  | nil =>
    intro c c' h
    simp [setAll] at h
    rw [← h]
    exact ⟨fun m => by simp [keyList], rfl, rfl, rfl, rfl, rfl⟩
  | cons p rest ih =>
    intro c c' h
    obtain ⟨n, v⟩ := p
    cases hsv : c.setVal n v with
    | error e =>
      simp only [setAll, hsv] at h
      exact Except.noConfusion h
    | ok c2 =>
      simp only [setAll, hsv] at h
      obtain ⟨hkeys, hpd, hps, hfq, hsq, hkq⟩ := ih c2 c' h
      obtain ⟨d, hd, hval, hcf, hcg, hc2⟩ := setVal_ok_inv c n v c2 hsv
      subst hc2
      refine ⟨?_, hpd, hps, by rw [hfq], by rw [hsq], hkq⟩
      intro m
      rw [hkeys m]
      constructor
      · rintro (hm | hm)
        · rcases (mem_keyList_assocSet _ _ _ _).mp hm with hm' | rfl
          · exact Or.inl hm'
          · exact Or.inr (by rw [keyList_cons]; exact List.mem_cons_self _ _)
        · exact Or.inr (by rw [keyList_cons]; exact List.mem_cons_of_mem _ hm)
      · rintro (hm | hm)
        · exact Or.inl ((mem_keyList_assocSet _ _ _ _).mpr (Or.inl hm))
        · rw [keyList_cons, List.mem_cons] at hm
          rcases hm with rfl | hm
          · exact Or.inl ((mem_keyList_assocSet _ _ _ _).mpr (Or.inr rfl))
          · exact Or.inr hm

/-! ## Construction lemmas -/

theorem keyList_map_pair {β : Type} (f : ParamDesc → β) (ds : List ParamDesc) :
    keyList (ds.map (fun d => (d.name, f d))) = ds.map ParamDesc.name := by
  simp [keyList, List.map_map, Function.comp]

theorem assocGet_map_self {β : Type} (f : ParamDesc → β) (ds : List ParamDesc)
    (hnd : (ds.map ParamDesc.name).Nodup) (d : ParamDesc) (hd : d ∈ ds) :
    assocGet (ds.map (fun x => (x.name, f x))) d.name = some (f d) := by
  induction ds with
  | nil => cases hd
  | cons d0 rest ih =>
    have hnodcons : (∀ x ∈ rest, ¬ x.name = d0.name) ∧ (rest.map ParamDesc.name).Nodup := by
      simpa using hnd
    rcases List.mem_cons.mp hd with rfl | hrest
    · simp [assocGet]
    · have hne : ¬ d0.name = d.name := fun he => hnodcons.1 d hrest he.symm
      rw [List.map_cons]
      show (if d0.name = d.name then some (f d0) else assocGet (rest.map _) d.name) = some (f d)
      rw [if_neg hne]
      exact ih hnodcons.2 hrest

theorem resolveT_eq_specResolve (proto : Proto) (initVals : Option (List (String × Val)))
    (d : ParamDesc) :
    resolveT (srcsOf proto initVals).1 (srcsOf proto initVals).2 d =
      specResolve initVals proto d := by
  cases proto with
  | descs l =>
    cases initVals with
    | none =>
      simp [srcsOf, resolveT, specResolve, ValSource.containsName, ValSource.lookupName, assocGet]
    | some o =>
      simp only [srcsOf, resolveT, specResolve, ValSource.containsName, ValSource.lookupName,
        Option.getD]
      cases hg : assocGet o d.name with
      | none => simp [hg, assocGet]
      | some v => simp [hg]
  | cont p =>
    cases initVals with
    | none =>
      simp only [srcsOf, resolveT, specResolve, ValSource.containsName, ValSource.lookupName,
        Option.getD]
      by_cases hc : p.contains d.name = true
      · simp [hc, assocGet]
      · simp [hc, assocGet]
    | some o =>
      simp only [srcsOf, resolveT, specResolve, ValSource.containsName, ValSource.lookupName,
        Option.getD]
      cases hg : assocGet o d.name with
      | none =>
        by_cases hc : p.contains d.name = true
        · simp [hg, hc]
        · simp [hg, hc]
      | some v => simp [hg]

theorem construct_eq_ok (kind : PKind) (proto : Proto) (initVals : Option (List (String × Val)))
    (P : List (String × ParamDesc)) (V : List (String × Val)) (c1 : Container)
    (hscan : scanDescs (srcsOf proto initVals).1 (srcsOf proto initVals).2
      proto.descList [] [] = .ok (P, V))
    (hsa : setAll ⟨kind, [], false, false, proto.descList, P⟩ V = .ok c1) :
    construct kind proto initVals = .ok c1.seal := by
  simp only [construct]
  rw [hscan]
  show (match setAll ⟨kind, [], false, false, proto.descList, P⟩ V with
        | .error e => Except.error e
        | .ok c1 => Except.ok c1.seal) = Except.ok c1.seal
  rw [hsa]

theorem construct_eq_err (kind : PKind) (proto : Proto) (initVals : Option (List (String × Val)))
    (e : Err)
    (hscan : scanDescs (srcsOf proto initVals).1 (srcsOf proto initVals).2
      proto.descList [] [] = .error e) :
    construct kind proto initVals = .error e := by
  simp only [construct]
  rw [hscan]

theorem construct_ok (kind : PKind) (proto : Proto) (initVals : Option (List (String × Val)))
    (hwf : proto.wfb = true)
    (hnd : (proto.descList.map ParamDesc.name).Nodup)
    (hval : ∀ d ∈ proto.descList, valOk d (specResolve initVals proto d) = true) :
    ∃ c, construct kind proto initVals = .ok c ∧
      c.isSealed = true ∧ c.isFrozen = false ∧ c.kind = kind ∧
      c.protoS = proto.descList ∧
      c.entries = proto.descList.map (fun d => (d.name, specResolve initVals proto d)) ∧
      ∀ d ∈ proto.descList, assocGet c.entries d.name = some (specResolve initVals proto d) := by
  obtain ⟨hw1, hw2⟩ := srcsOf_wfb proto initVals hwf
  have hscan := scanDescs_ok (srcsOf proto initVals).1 (srcsOf proto initVals).2 hw1 hw2
      proto.descList [] [] (by intro d _; simp [keyList]) (by intro d _; simp [keyList]) hnd
  rw [List.nil_append, List.nil_append] at hscan
  have hfeq : (fun d => (d.name, resolveT (srcsOf proto initVals).1 (srcsOf proto initVals).2 d)) =
      (fun d => (d.name, specResolve initVals proto d)) := by
    funext d
    rw [resolveT_eq_specResolve]
  rw [hfeq] at hscan
  have hv0 : ∀ p ∈ proto.descList.map (fun d => (d.name, specResolve initVals proto d)),
      ∃ d, assocGet (proto.descList.map (fun d => (d.name, d))) p.1 = some d ∧
        valOk d p.2 = true := by
    intro p hp
    obtain ⟨d, hd, hpd⟩ := List.mem_map.mp hp
    subst hpd
    exact ⟨d, assocGet_map_self (fun x => x) proto.descList hnd d hd, hval d hd⟩
  have hfresh0 : ∀ p ∈ proto.descList.map (fun d => (d.name, specResolve initVals proto d)),
      assocGet ([] : List (String × Val)) p.1 = Option.none := by
    intro p _
    rfl
  have hnd0 : (keyList (proto.descList.map
      (fun d => (d.name, specResolve initVals proto d)))).Nodup := by
    rw [keyList_map_pair]
    exact hnd
  obtain ⟨c1, hsetall, hent, hpd1, hps1, hk1, hf1, hs1⟩ :=
    setAll_ok _ ⟨kind, [], false, false, proto.descList, proto.descList.map (fun d => (d.name, d))⟩
      rfl rfl hv0 hfresh0 hnd0
  refine ⟨c1.seal, construct_eq_ok kind proto initVals _ _ c1 hscan hsetall, rfl, hf1, hk1, hps1,
    ?_, ?_⟩
  · show c1.entries = _
    rw [hent]
    exact List.nil_append _
  · intro d hd
    show assocGet c1.entries d.name = _
    rw [hent, List.nil_append]
    exact assocGet_map_self (fun x => specResolve initVals proto x) proto.descList hnd d hd

theorem construct_ok_inv (kind : PKind) (proto : Proto) (initVals : Option (List (String × Val)))
    (c : Container) (h : construct kind proto initVals = .ok c) :
    c.isSealed = true ∧ c.WFb = true := by
  simp only [construct] at h
  cases hscan : scanDescs (srcsOf proto initVals).1 (srcsOf proto initVals).2
      proto.descList [] [] with
  | error e =>
    rw [hscan] at h
    exact Except.noConfusion h
  | ok pv =>
    obtain ⟨P, V⟩ := pv
    rw [hscan] at h
    have h2 : (match setAll ⟨kind, [], false, false, proto.descList, P⟩ V with
               | Except.error e => (Except.error e : Except Err Container)
               | Except.ok c1 => Except.ok c1.seal) = Except.ok c := h
    clear h
    cases hsa : setAll ⟨kind, [], false, false, proto.descList, P⟩ V with
    | error e =>
      rw [hsa] at h2
      exact Except.noConfusion h2
    | ok c1 =>
      rw [hsa] at h2
      have h3 : Except.ok c1.seal = Except.ok c := h2
      injection h3 with hc
      have hPV := scanDescs_ok_keys _ _ proto.descList [] [] P V hscan rfl
      obtain ⟨hkeys, hpd, _, _, _, _⟩ :=
        setAll_ok_inv V ⟨kind, [], false, false, proto.descList, P⟩ c1 hsa
      subst hc
      refine ⟨rfl, ?_⟩
      rw [WFb_iff]
      intro n
      have h1 : n ∈ keyList c1.entries ↔ n ∈ keyList V := by
        rw [hkeys n]
        simp [keyList]
      show n ∈ keyList c1.entries ↔ n ∈ keyList c1.protoD
      rw [h1, hpd]
      show n ∈ keyList V ↔ n ∈ keyList P
      rw [hPV]

/-! ## Concrete fixtures (the schema of the spec's end-to-end examples) -/

/-- Descriptor `('lr', 'learning rate', frange_incl(0, 1), 0)`. -/
def dLr : ParamDesc :=
  { name := "lr", text := "learning rate", validator := some (.frange_incl 0 1),
    default := Val.int 0 }

/-- Descriptor `('layers', 'layer count', None, 1)`. -/
def dLayers : ParamDesc :=
  { name := "layers", text := "layer count", validator := Option.none, default := Val.int 1 }

/-- A mandatory descriptor: validator `mandatory`, no default. -/
def dMand : ParamDesc :=
  { name := "layer_type", text := "type of layers", validator := some .mandatory,
    default := Val.none }

/-- Descriptor `('x', 'an int', None, 5)`. -/
def dX : ParamDesc :=
  { name := "x", text := "an int", validator := Option.none, default := Val.int 5 }

/-- The `Params` built from `[dLr, dLayers]` with no overrides. -/
def cP : Container :=
  { kind := .params, entries := [("lr", Val.int 0), ("layers", Val.int 1)],
    isFrozen := false, isSealed := true, protoS := [dLr, dLayers],
    protoD := [("lr", dLr), ("layers", dLayers)] }

/-- The `HyperParams` built from `[dMand]` with no overrides: the mandatory
property stays at the marker. -/
def cH : Container :=
  { kind := .hyperparams, entries := [("layer_type", Val.none)],
    isFrozen := false, isSealed := true, protoS := [dMand],
    protoD := [("layer_type", dMand)] }

/-- The `HyperParams` built from `[dX]` with no overrides (so `x` holds the
default 5). -/
def cTwo : Container :=
  { kind := .hyperparams, entries := [("x", Val.int 5)], isFrozen := false, isSealed := true,
    protoS := [dX], protoD := [("x", dX)] }

/-- `cTwo` after `x` was explicitly set back to the marker. -/
def pOne : Container :=
  { kind := .hyperparams, entries := [("x", Val.none)], isFrozen := false, isSealed := true,
    protoS := [dX], protoD := [("x", dX)] }

/-- A small sealed base container. -/
def pB : Properties := ⟨[("a", Val.int 1)], false, true⟩

/-! ## The claims -/

/-- C5: for the Base Container, `get` fails with KeyNotFound exactly when
the key is absent from the entries and otherwise returns the stored value;
`set` fails with AccessDenied when frozen, else with AccessDenied when
sealed and the key is new, and otherwise stores the value — overwriting an
existing key succeeds even when sealed. -/
theorem C5_theorem (p : Properties) (k : String) (v : Val) :
    (Properties.getVal p k = .error .keyNotFound ↔ assocGet p.entries k = Option.none) ∧
    (∀ w, Properties.getVal p k = .ok w ↔ assocGet p.entries k = some w) ∧
    (p.isFrozen = true → p.setVal k v = .error .accessDenied) ∧
    (p.isFrozen = false → p.isSealed = true → assocGet p.entries k = Option.none →
      p.setVal k v = .error .accessDenied) ∧
    (p.isFrozen = false → (p.isSealed = false ∨ (assocGet p.entries k).isSome = true) →
      p.setVal k v = .ok ⟨assocSet p.entries k v, p.isFrozen, p.isSealed⟩) := by
  refine ⟨?_, ?_, ?_, ?_, ?_⟩
  · unfold Properties.getVal
    cases hg : assocGet p.entries k <;> simp
  · intro w
    unfold Properties.getVal
    cases hg : assocGet p.entries k <;> simp
  · intro hf
    simp [Properties.setVal, hf]
  · intro hf hs hg
    simp [Properties.setVal, hf, hs, hg]
  · intro hf hg
    rcases hg with hs | hsome
    · simp [Properties.setVal, hf, hs]
    · obtain ⟨w, hw⟩ := Option.isSome_iff_exists.mp hsome
      simp [Properties.setVal, hf, hw]

/-- Witness for C5: concrete reads and guarded writes on the sealed base
container `pB` and on its frozen variant. -/
theorem C5_witness :
    Properties.getVal pB "b" = .error .keyNotFound ∧
    pB.setVal "a" (Val.int 2) = .ok ⟨[("a", Val.int 2)], false, true⟩ ∧
    pB.setVal "b" (Val.int 2) = .error .accessDenied ∧
    (pB.freeze).setVal "a" (Val.int 2) = .error .accessDenied := by
  refine ⟨(C5_theorem pB "b" (Val.int 2)).1.mpr (by decide), ?_, ?_, ?_⟩
  · have h := (C5_theorem pB "a" (Val.int 2)).2.2.2.2 rfl (Or.inr (by decide))
    rw [h]
    decide
  · exact (C5_theorem pB "b" (Val.int 2)).2.2.2.1 rfl rfl (by decide)
  · exact (C5_theorem pB.freeze "a" (Val.int 2)).2.2.1 rfl

/-- C8: `copy()` on a Base Container returns a duplicate holding exactly
the same entries whose guard state is reset — neither frozen nor sealed,
regardless of the original's flags — and, the duplicate being a distinct
value, writes to it go through freely and leave the original untouched. -/
theorem C8_theorem (p : Properties) (k : String) (v : Val) :
    (p.copy).entries = p.entries ∧ (p.copy).isFrozen = false ∧ (p.copy).isSealed = false ∧
    (p.copy).runSet k v =
      ({ entries := assocSet p.entries k v, isFrozen := false, isSealed := false }, Option.none) := by
  refine ⟨rfl, rfl, rfl, ?_⟩
  simp [Properties.copy, Properties.runSet, Properties.setVal]

/-- C9: a failing `set` — whether AccessDenied, KeyNotFound or InvalidValue
— leaves the container exactly as it was: under the raise-before-write
semantics of `runSet`, an erroring call's post-state equals its pre-state,
for the Base Container and the schema-bound containers alike (the flags are
fields of that state, so they are unchanged too). -/
theorem C9_theorem (p : Properties) (c : Container) (k n : String) (v w : Val) :
    (∀ e, (p.runSet k v).2 = some e → (p.runSet k v).1 = p) ∧
    (∀ e, (c.runSet n w).2 = some e → (c.runSet n w).1 = c) := by
  constructor
  · intro e
    unfold Properties.runSet
    cases p.setVal k v <;> simp
  · intro e
    unfold Container.runSet
    cases c.setVal n w <;> simp

/-- Witness for C9: a frozen base container after a denied write, and a
schema-bound container after a write to an unknown key, are unchanged. -/
theorem C9_witness :
    ((pB.freeze).runSet "a" (Val.int 2)).1 = pB.freeze ∧
    (cP.runSet "momentum" (Val.int 0)).1 = cP := by
  exact ⟨(C9_theorem pB.freeze cP "a" "momentum" (Val.int 2) (Val.int 0)).1
           .accessDenied (by decide),
         (C9_theorem pB.freeze cP "a" "momentum" (Val.int 2) (Val.int 0)).2
           .keyNotFound (by decide)⟩

/-- C2: for a declared name with validator V on a well-formed, unfrozen
schema-bound container, writing a non-marker value succeeds iff V accepts
it and fails with InvalidValue iff V rejects it, while writing the marker
itself always succeeds irrespective of V (the schema-membership and
frozen/sealed guard checks being satisfied here by hypothesis). -/
theorem C2_theorem (c : Container) (n : String) (d : ParamDesc) (V : Validator) (v : Val)
    (hwf : c.WFb = true) (hd : assocGet c.protoD n = some d) (hV : d.validator = some V)
    (hfr : c.isFrozen = false) :
    (v ≠ Val.none →
      (((∃ c', c.setVal n v = .ok c') ↔ V.test v = true) ∧
       (c.setVal n v = .error .invalidValue ↔ V.test v = false))) ∧
    (∃ c', c.setVal n Val.none = .ok c') := by
  have hmem : (assocGet c.entries n).isSome = true := by
    have := ((WFb_iff c).mp hwf n).mpr ((mem_keyList_iff _ _).mpr (by simp [hd]))
    exact (mem_keyList_iff _ _).mp this
  constructor
  · intro hv
    have hvo : valOk d v = V.test v := by
      simp [valOk, hV, hv]
    constructor
    · constructor
      · rintro ⟨c', hc'⟩
        obtain ⟨d', hd', hval, _, _, _⟩ := setVal_ok_inv c n v c' hc'
        rw [hd] at hd'
        injection hd' with hdd
        rw [← hdd, hvo] at hval
        exact hval
      · intro hVv
        exact ⟨_, setVal_ok_eq c n v d hd (by rw [hvo]; exact hVv) hfr (Or.inr hmem)⟩
    · constructor
      · intro herr
        by_cases hVv : V.test v = true
        · exfalso
          have hok := setVal_ok_eq c n v d hd (by rw [hvo]; exact hVv) hfr (Or.inr hmem)
          rw [hok] at herr
          exact Except.noConfusion herr
        · exact Bool.eq_false_iff.mpr hVv
      · intro hVv
        have hvof : valOk d v = false := by rw [hvo]; exact hVv
        simp [Container.setVal, hd, hvof]
  · exact ⟨_, setVal_ok_eq c n Val.none d hd (by simp [valOk]) hfr (Or.inr hmem)⟩

/-- Witness for C2 on `cP` and the `lr` range validator: 7 is rejected with
InvalidValue, 1 is accepted, and the marker is always accepted. -/
theorem C2_witness :
    cP.setVal "lr" (Val.int 7) = .error .invalidValue ∧
    (∃ c', cP.setVal "lr" (Val.int 1) = .ok c') ∧
    (∃ c', cP.setVal "lr" Val.none = .ok c') := by
  have h7 := C2_theorem cP "lr" dLr (.frange_incl 0 1) (Val.int 7)
    (by decide) (by decide) (by decide) rfl
  have h1 := C2_theorem cP "lr" dLr (.frange_incl 0 1) (Val.int 1)
    (by decide) (by decide) (by decide) rfl
  exact ⟨((h7.1 (by decide)).2).mpr (by decide), ((h1.1 (by decide)).1).mpr (by decide), h1.2⟩

/-- C3: on a Presence-Aware container, reading a declared name whose stored
value is the marker fails with the same KeyNotFound used for names outside
the schema whenever the validator does not accept the marker, and otherwise
returns the stored value; the identical state read through the plain
schema-bound class instead returns the marker successfully. -/
theorem C3_theorem (c : Container) (n : String) (d : ParamDesc) (v : Val)
    (hk : c.kind = .hyperparams)
    (hd : assocGet c.protoD n = some d) (he : assocGet c.entries n = some v) :
    ((v = Val.none ∧ acceptsNone d.validator = false) → c.getVal n = .error .keyNotFound) ∧
    (¬ (v = Val.none ∧ acceptsNone d.validator = false) → c.getVal n = .ok v) ∧
    (∀ m, c.isValidName m = false → c.getVal m = .error .keyNotFound) ∧
    Container.getVal { c with kind := PKind.params } n = .ok v := by
  have hvalid : c.isValidName n = true := by simp [Container.isValidName, hd]
  have hgp : c.getValP n = some v := by simp [Container.getValP, hvalid, he]
  refine ⟨?_, ?_, ?_, ?_⟩
  · intro hcond
    simp [Container.getVal, Container.getValTot, hk, hgp, hd, hcond]
  · intro hcond
    simp [Container.getVal, Container.getValTot, hk, hgp, hd, hcond]
  · intro m hm
    have hgm : c.getValP m = Option.none := by simp [Container.getValP, hm]
    cases hck : c.kind with
    | params => simp [Container.getVal, Container.getValTot, hck, hgm]
    | hyperparams => simp [Container.getVal, Container.getValTot, hck, hgm]
  · simp [Container.getVal, Container.getValTot, Container.getValP, Container.isValidName,
      hd, he]

/-- Witness for C3: the mandatory, unset `layer_type` of `cH` raises
KeyNotFound through the presence-aware read, returns the marker through the
plain read, and an unknown name raises the same KeyNotFound. -/
theorem C3_witness :
    Container.getVal cH "layer_type" = .error .keyNotFound ∧
    Container.getVal { cH with kind := PKind.params } "layer_type" = .ok Val.none ∧
    Container.getVal cH "oops" = .error .keyNotFound := by
  have h := C3_theorem cH "layer_type" dMand Val.none rfl (by decide) (by decide)
  exact ⟨h.1 (by decide), h.2.2.2, h.2.2.1 "oops" (by decide)⟩

/-- C10: the membership test of a Presence-Aware container never raises (it
is a total boolean) and mirrors the read path: false for names outside the
schema, false for a declared name exactly when the stored value is the
marker and the validator does not accept the marker, and true precisely
when `get` would succeed. -/
theorem C10_theorem (c : Container) (hk : c.kind = .hyperparams) :
    (∀ n, c.isValidName n = false → c.contains n = false) ∧
    (∀ n d v, assocGet c.protoD n = some d → assocGet c.entries n = some v →
      ((v = Val.none ∧ acceptsNone d.validator = false) → c.contains n = false) ∧
      (¬ (v = Val.none ∧ acceptsNone d.validator = false) → c.contains n = true)) ∧
    (∀ n, c.contains n = true ↔ ∃ v, c.getVal n = .ok v) := by
  refine ⟨?_, ?_, ?_⟩
  · intro n hn
    have hgm : c.getValP n = Option.none := by simp [Container.getValP, hn]
    simp [Container.contains, hk, Container.getValTot, hgm]
  · intro n d v hd he
    have hvalid : c.isValidName n = true := by simp [Container.isValidName, hd]
    have hgp : c.getValP n = some v := by simp [Container.getValP, hvalid, he]
    constructor
    · intro hcond
      simp [Container.contains, hk, Container.getValTot, hgp, hd, hcond]
    · intro hcond
      simp [Container.contains, hk, Container.getValTot, hgp, hd, hcond]
  · intro n
    cases hg : c.getValTot n with
    | none => simp [Container.contains, hk, Container.getVal, hg]
    | some w => simp [Container.contains, hk, Container.getVal, hg]

/-- Witness for C10 on `cH`: an unknown name and the unset mandatory name
both test false, and membership agrees with `get` succeeding. -/
theorem C10_witness :
    Container.contains cH "nope" = false ∧
    Container.contains cH "layer_type" = false ∧
    (Container.contains cH "layer_type" = true ↔
      ∃ v, Container.getVal cH "layer_type" = .ok v) := by
  have h := C10_theorem cH rfl
  exact ⟨h.1 "nope" (by decide),
         (h.2.1 "layer_type" dMand Val.none (by decide) (by decide)).1 (by decide),
         h.2.2 "layer_type"⟩

/-- C4: every schema-bound container is sealed as construction ends, with
the entry key set equal to the descriptor key set; thereafter a write to an
undeclared name fails with KeyNotFound, a write to a declared name with an
acceptable value succeeds while unfrozen, and every successful write
preserves the entry key set and the schema, so no operation grows or
shrinks the key set. -/
theorem C4_theorem :
    (∀ (kind : PKind) (proto : Proto) (initVals : Option (List (String × Val))) (c : Container),
      construct kind proto initVals = .ok c → c.isSealed = true ∧ c.WFb = true) ∧
    (∀ (c : Container) (n : String) (v : Val), assocGet c.protoD n = Option.none →
      c.setVal n v = .error .keyNotFound) ∧
    (∀ (c : Container) (n : String) (v : Val) (d : ParamDesc), c.WFb = true →
      assocGet c.protoD n = some d → valOk d v = true → c.isFrozen = false →
      ∃ c', c.setVal n v = .ok c') ∧
    (∀ (c c' : Container) (n : String) (v : Val), c.WFb = true → c.setVal n v = .ok c' →
      keyList c'.entries = keyList c.entries ∧ c'.protoD = c.protoD ∧ c'.WFb = true) := by
  refine ⟨fun kind proto iv c h => construct_ok_inv kind proto iv c h, ?_, ?_, ?_⟩
  · intro c n v hn
    simp [Container.setVal, hn]
  · intro c n v d hwf hd hval hf
    have hmem : (assocGet c.entries n).isSome = true := by
      have := ((WFb_iff c).mp hwf n).mpr ((mem_keyList_iff _ _).mpr (by simp [hd]))
      exact (mem_keyList_iff _ _).mp this
    exact ⟨_, setVal_ok_eq c n v d hd hval hf (Or.inr hmem)⟩
  · intro c c' n v hwf hsv
    obtain ⟨d, hd, hval, hcf, _, hceq⟩ := setVal_ok_inv c n v c' hsv
    subst hceq
    have hmem : n ∈ keyList c.entries :=
      ((WFb_iff c).mp hwf n).mpr ((mem_keyList_iff _ _).mpr (by simp [hd]))
    refine ⟨?_, rfl, ?_⟩
    · show keyList (assocSet c.entries n v) = keyList c.entries
      rw [keyList_assocSet, if_pos hmem]
    · rw [WFb_iff]
      intro m
      show m ∈ keyList (assocSet c.entries n v) ↔ m ∈ keyList c.protoD
      rw [keyList_assocSet, if_pos hmem]
      exact (WFb_iff c).mp hwf m

/-- Witness for C4: the concretely constructed `cP` is sealed and
well-formed; a write to an unknown name fails with KeyNotFound while a
valid write to `lr` succeeds. -/
theorem C4_witness :
    cP.isSealed = true ∧ cP.WFb = true ∧
    cP.setVal "momentum" (Val.int 0) = .error .keyNotFound ∧
    (∃ c', cP.setVal "lr" (Val.int 1) = .ok c') := by
  have h := C4_theorem
  refine ⟨(h.1 .params (.descs [dLr, dLayers]) Option.none cP (by decide)).1,
          (h.1 .params (.descs [dLr, dLayers]) Option.none cP (by decide)).2,
          h.2.1 cP "momentum" (Val.int 0) (by decide),
          h.2.2.1 cP "lr" (Val.int 1) dLr (by decide) (by decide) (by decide) rfl⟩

/-- C6: a construction call whose schema sequence contains two descriptors
sharing a name fails with DuplicateDeclaration, whatever the overrides and
whatever their values: since the outcome is this error for every choice of
overrides — even value-invalid ones — no value assignment into the new
container is performed and no validation failure pre-empts the duplicate
failure. -/
theorem C6_theorem (kind : PKind) (proto : Proto) (initVals : Option (List (String × Val)))
    (hwf : proto.wfb = true)
    (hdup : ¬ (proto.descList.map ParamDesc.name).Nodup) :
    construct kind proto initVals = .error .duplicateDeclaration := by
  obtain ⟨hw1, hw2⟩ := srcsOf_wfb proto initVals hwf
  exact construct_eq_err kind proto initVals _
    (scanDescs_dup _ _ hw1 hw2 proto.descList [] [] (Or.inl hdup))

/-- Witness for C6: the duplicated schema `[dLr, dLr]` fails with
DuplicateDeclaration even though the supplied override 99 would itself be
rejected by the validator — the duplicate failure comes first. -/
theorem C6_witness :
    construct .params (.descs [dLr, dLr]) (some [("lr", Val.int 99)]) =
      .error .duplicateDeclaration :=
  C6_theorem .params (.descs [dLr, dLr]) (some [("lr", Val.int 99)]) (by decide) (by decide)

/-- C7 counterexample: the claim "once frozen, every subsequent set (any
key, any value) raises AccessDenied" is false for a schema-bound container:
`Params._set_val_` checks the name and the validator before the frozen
guard, so on the frozen `cP` a write to the unknown key "momentum" raises
KeyNotFound and an out-of-range write to "lr" raises InvalidValue. -/
theorem C7_counterexample :
    (cP.freeze).isFrozen = true ∧
    (cP.freeze).setVal "momentum" (Val.int 0) = .error .keyNotFound ∧
    (cP.freeze).setVal "lr" (Val.int 7) = .error .invalidValue ∧
    Err.keyNotFound ≠ Err.accessDenied := by
  refine ⟨rfl, by decide, by decide, by decide⟩

/-- C7 (amended): once frozen no write ever succeeds and the entries never
change, reads are unaffected, and the guards are permanent: on the Base
Container every write on a frozen object fails with AccessDenied regardless
of key, while a frozen schema-bound container reports KeyNotFound for an
undeclared name and InvalidValue for an invalid value (those checks come
first) and AccessDenied for every write passing them; freeze and seal are
idempotent, successful writes never alter the flags, and no operation
clears them. -/
theorem C7_theorem (c : Container) (n : String) (v : Val) (hf : c.isFrozen = true) :
    (∀ c', c.setVal n v ≠ .ok c') ∧
    ((∃ d, assocGet c.protoD n = some d ∧ valOk d v = true) →
      c.setVal n v = .error .accessDenied) ∧
    (∀ p : Properties, p.isFrozen = true → ∀ k w, p.setVal k w = .error .accessDenied) ∧
    (∀ m, (c.freeze).getVal m = c.getVal m) ∧
    c.freeze.freeze = c.freeze ∧ c.seal.seal = c.seal ∧
    c.freeze.isFrozen = true ∧ c.seal.isSealed = true ∧
    (∀ (c2 : Container) m w c', c2.setVal m w = .ok c' →
      c'.isFrozen = c2.isFrozen ∧ c'.isSealed = c2.isSealed) := by
  refine ⟨?_, ?_, ?_, ?_, rfl, rfl, rfl, rfl, ?_⟩
  · intro c' hc'
    obtain ⟨d, hd, hval, hcf, _, _⟩ := setVal_ok_inv c n v c' hc'
    rw [hf] at hcf
    exact Bool.noConfusion hcf
  · rintro ⟨d, hd, hval⟩
    simp [Container.setVal, hd, hval, Properties.setVal, hf]
  · intro p hp k w
    simp [Properties.setVal, hp]
  · intro m
    rfl
  · intro c2 m w c' hc'
    obtain ⟨d, hd, hval, hcf, hcg, hceq⟩ := setVal_ok_inv c2 m w c' hc'
    subst hceq
    exact ⟨rfl, rfl⟩

/-- Witness for C7 on the frozen `cP`: a valid write to `lr` is denied with
AccessDenied, and a read still returns the stored value. -/
theorem C7_witness :
    (cP.freeze).setVal "lr" (Val.int 1) = .error .accessDenied ∧
    ((cP.freeze).freeze).getVal "lr" = (cP.freeze).getVal "lr" := by
  have h := C7_theorem cP.freeze "lr" (Val.int 1) rfl
  exact ⟨h.2.1 ⟨dLr, by decide, by decide⟩, h.2.2.2.1 "lr"⟩

/-- C1 (amended): construction from a duplicate-free schema with optional
overrides succeeds when every resolved value is the marker or is accepted
by its validator, the result is sealed and not frozen, and each declared
name stores exactly `specResolve`: the override value when the name is
present in the overrides; else, when the prototype is a container instance
in which the name is effectively present (its membership test succeeds —
always, for a plain schema-bound prototype; for a presence-aware prototype
only when the stored value is not the marker or its validator accepts the
marker), the prototype's current value; else the descriptor's declared
default (itself the marker when no default was declared). -/
theorem C1_theorem (kind : PKind) (proto : Proto) (initVals : Option (List (String × Val)))
    (hwf : proto.wfb = true)
    (hnd : (proto.descList.map ParamDesc.name).Nodup)
    (hval : ∀ d ∈ proto.descList, valOk d (specResolve initVals proto d) = true) :
    ∃ c, construct kind proto initVals = .ok c ∧ c.isSealed = true ∧ c.isFrozen = false ∧
      ∀ d ∈ proto.descList, assocGet c.entries d.name = some (specResolve initVals proto d) := by
  obtain ⟨c, h1, h2, h3, _, _, _, h7⟩ := construct_ok kind proto initVals hwf hnd hval
  exact ⟨c, h1, h2, h3, h7⟩

/-- Witness for C1: the spec's example schema with override `lr = 1`. -/
theorem C1_witness :
    ∃ c, construct .params (.descs [dLr, dLayers]) (some [("lr", Val.int 1)]) = .ok c ∧
      c.isSealed = true ∧ c.isFrozen = false ∧
      ∀ d ∈ (Proto.descs [dLr, dLayers]).descList,
        assocGet c.entries d.name =
          some (specResolve (some [("lr", Val.int 1)]) (.descs [dLr, dLayers]) d) :=
  C1_theorem .params (.descs [dLr, dLayers]) (some [("lr", Val.int 1)]) (by decide) (by decide)
    (by decide)

/-- C1 counterexample: the claim's clause "else the prototype container's
current stored value for that name if the prototype was a container
instance" fails for a presence-aware prototype.  `pOne` is reachable
(build from `[dX]`, then set `x` back to the marker — an always-accepted
write), its schema is duplicate-free, and the claim's resolved value for
`x` is the marker (always acceptable); yet the container built from `pOne`
stores the descriptor default 5, not `pOne`'s current stored marker. -/
theorem C1_counterexample :
    construct .hyperparams (.descs [dX]) Option.none = .ok cTwo ∧
    cTwo.setVal "x" Val.none = .ok pOne ∧
    assocGet pOne.entries "x" = some Val.none ∧
    construct .hyperparams (.cont pOne) Option.none = .ok cTwo ∧
    assocGet cTwo.entries "x" = some (Val.int 5) ∧
    Val.int 5 ≠ Val.none := by
  refine ⟨by decide, by decide, by decide, by decide, by decide, by decide⟩
